import Mathlib

/-!
Shallow embedding of `nf_core/modules.py`: a module manager that fetches a
GitHub repository file tree, derives available module names, and installs a
module by downloading its files.  Network responses and the filesystem are
modelled as explicit arguments (oracles); side effects (directory creation,
blob fetches, file writes) are recorded in an explicit effect log.
-/

/-- `ModulesRepo` from the source: repository name and branch. -/
structure ModulesRepo where
  name : String
  branch : String
deriving DecidableEq, Repr

/-- One entry of the GitHub git-tree response: `{path, type, url, sha}`. -/
structure FileTreeEntry where
  path : String
  type : String
  url : String
  sha : String
deriving DecidableEq, Repr

/-- The mutable fields of a `PipelineModules` object. -/
structure PipelineModulesState where
  modules_repo : ModulesRepo
  pipeline_dir : String
  modules_file_tree : List FileTreeEntry
  modules_current_hash : Option String
  modules_avail_module_names : List String
deriving DecidableEq, Repr

/-- `PipelineModules.__init__`: empty tree, no hash, empty module-name list. -/
def initPipelineModules (repo : ModulesRepo) (cwd : String) : PipelineModulesState :=
  { modules_repo := repo
    pipeline_dir := cwd
    modules_file_tree := []
    modules_current_hash := none
    modules_avail_module_names := [] }

/-- JSON body of the git-tree endpoint: `{sha, tree, truncated}`. -/
structure TreeBody where
  sha : String
  tree : List FileTreeEntry
  truncated : Bool
deriving DecidableEq, Repr

/-- An HTTP response of the git-tree endpoint: status code and parsed body. -/
structure TreeResponse where
  status : Nat
  body : TreeBody
deriving DecidableEq, Repr

/-- Outcome of `get_modules_file_tree`: `sys.exit(code)` on 404, a raised
`SystemError` on other non-200 statuses, a raised `AssertionError` when the
body is truncated, or the updated object state. -/
inductive FetchOutcome where
  | sysExit (code : Nat)
  | fetchError
  | assertFailure
  | ok (st : PipelineModulesState)
deriving DecidableEq, Repr

/-- Is `needle` a contiguous sublist of `haystack`? -/
def listInfixOf (needle : List Char) : List Char → Bool
  | [] => needle.isEmpty
  | h :: t => needle.isPrefixOf (h :: t) || listInfixOf needle t

/-- Python `s.startswith(pre)`. -/
def strStartsWith (s pre : String) : Bool :=
  pre.toList.isPrefixOf s.toList

/-- Python `s.endswith(suf)`. -/
def strEndsWith (s suf : String) : Bool :=
  suf.toList.reverse.isPrefixOf s.toList.reverse

/-- Python substring containment `needle in haystack`. -/
def strContains (haystack needle : String) : Bool :=
  listInfixOf needle.toList haystack.toList

/-- The path test of the name-derivation loop:
`f["path"].startswith("software/") and f["path"].endswith("/main.nf")
and "/test/" not in f["path"]`. -/
def isModulePath (p : String) : Bool :=
  strStartsWith p "software/" && strEndsWith p "/main.nf" && !(strContains p "/test/")

/-- Python slice `p[9:-8]`: drop the first 9 characters and the last 8. -/
def stripModuleName (p : String) : String :=
  String.mk ((p.toList.drop 9).take (p.toList.length - 17))

/-- `PipelineModules.get_modules_file_tree`, with the HTTP response passed in
explicitly.  Note the source *appends* derived names onto
`modules_avail_module_names` (`self.modules_avail_module_names.append(...)`)
instead of resetting the list. -/
def get_modules_file_tree (st : PipelineModulesState) (r : TreeResponse) :
    FetchOutcome :=
  if r.status = 404 then
    .sysExit 1
  else if r.status ≠ 200 then
    .fetchError
  else if r.body.truncated then
    .assertFailure
  else
    .ok { st with
      modules_current_hash := some r.body.sha
      modules_file_tree := r.body.tree
      modules_avail_module_names :=
        r.body.tree.foldl
          (fun acc f =>
            if isModulePath f.path then acc ++ [stripModuleName f.path] else acc)
          st.modules_avail_module_names }

/-- The available-module-names list of a fetch outcome, when it succeeded. -/
def availOf : FetchOutcome → Option (List String)
  | .ok st => some st.modules_avail_module_names
  | _ => none

/-- Calling `get_modules_file_tree` twice in a row with the same response. -/
def fetchTwice (st : PipelineModulesState) (r : TreeResponse) : FetchOutcome :=
  match get_modules_file_tree st r with
  | .ok st1 => get_modules_file_tree st1 r
  | o => o

/-- Python dict assignment `d[k] = v` on an insertion-ordered dictionary,
represented as an association list: an existing key keeps its position and
gets the new value, a fresh key is appended. -/
def dictInsert (d : List (String × String)) (k v : String) : List (String × String) :=
  if d.any (fun kv => kv.1 = k) then
    d.map (fun kv => if kv.1 = k then (k, v) else kv)
  else
    d ++ [(k, v)]

/-- `PipelineModules.get_module_file_urls`: loop over the file tree, keep
entries whose path starts with `software/<module>` and whose type is `blob`,
building the `results` dict from path to url. -/
def get_module_file_urls (module : String) (tree : List FileTreeEntry) :
    List (String × String) :=
  tree.foldl
    (fun results f =>
      if strStartsWith f.path ("software/" ++ module) && f.type = "blob" then
        dictInsert results f.path f.url
      else
        results)
    []

/-- The source's method reads `self.modules_file_tree` and writes nothing:
its embedding returns the result together with the (unchanged) state. -/
def get_module_file_urls_method (st : PipelineModulesState) (module : String) :
    List (String × String) × PipelineModulesState :=
  (get_module_file_urls module st.modules_file_tree, st)

/-- Drop trailing `/` characters. -/
def rstripSlash (l : List Char) : List Char :=
  (l.reverse.dropWhile (· = '/')).reverse

/-- `os.path.dirname` for POSIX paths: everything up to the last `/`, with
trailing slashes stripped unless the head is all slashes. -/
def dirname (p : String) : String :=
  let r := p.toList.reverse
  let afterRev := r.dropWhile (· ≠ '/')
  if afterRev.isEmpty then ""
  else
    let head := afterRev.reverse
    if head.all (· = '/') then String.mk head else String.mk (rstripSlash head)

/-- The standard base64 alphabet (RFC 4648), as used by Python's
`base64.b64encode`/`b64decode`. -/
def b64alphabet : List Char :=
  "ABCDEFGHIJKLMNOPQRSTUVWXYZabcdefghijklmnopqrstuvwxyz0123456789+/".toList

/-- Character for a six-bit group. -/
def sextetChar (s : Nat) : Char :=
  b64alphabet.getD s 'A'

/-- Index of a character in the base64 alphabet, if any. -/
def charSextet (c : Char) : Option Nat :=
  let i := b64alphabet.indexOf c
  if i < 64 then some i else none

/-- `base64.b64encode` on a byte sequence: groups of three bytes become four
alphabet characters; a trailing group of one or two bytes is padded with
`=`. -/
def b64encode : List Nat → List Char
  | [] => []
  | [a] =>
      [sextetChar (a / 4), sextetChar (a % 4 * 16), '=', '=']
  | [a, b] =>
      [sextetChar (a / 4), sextetChar (a % 4 * 16 + b / 16),
       sextetChar (b % 16 * 4), '=']
  | a :: b :: c :: rest =>
      sextetChar (a / 4) :: sextetChar (a % 4 * 16 + b / 16) ::
      sextetChar (b % 16 * 4 + c / 64) :: sextetChar (c % 64) :: b64encode rest

/-- Decode base64 four characters at a time, handling `=` padding in the
final group; `none` models the `binascii.Error` raised on malformed input. -/
def b64decodeGroups : List Char → Option (List Nat)
  | [] => some []
  | c1 :: c2 :: c3 :: c4 :: rest =>
      match charSextet c1, charSextet c2 with
      | some s1, some s2 =>
        if c3 = '=' then
          if c4 = '=' ∧ rest = [] then some [s1 * 4 + s2 / 16] else none
        else
          match charSextet c3 with
          | some s3 =>
            if c4 = '=' then
              if rest = [] then some [s1 * 4 + s2 / 16, s2 % 16 * 16 + s3 / 4]
              else none
            else
              match charSextet c4 with
              | some s4 =>
                match b64decodeGroups rest with
                | some bs =>
                    some ((s1 * 4 + s2 / 16) :: (s2 % 16 * 16 + s3 / 4) ::
                          (s3 % 4 * 64 + s4) :: bs)
                | none => none
              | none => none
          | none => none
      | _, _ => none
  | _ => none

/-- `base64.b64decode` (default `validate=False`): characters outside the
alphabet and padding are discarded, then the groups are decoded. -/
def b64decode (cs : List Char) : Option (List Nat) :=
  b64decodeGroups (cs.filter (fun c => c = '=' || (charSextet c).isSome))

/-- A blob-endpoint HTTP response: status code and the JSON `content` field. -/
structure BlobResponse where
  status : Nat
  content : String
deriving DecidableEq, Repr

/-- Outcome of `download_gh_file`.  `mkdir` records the `os.makedirs` call
made before the request when the parent directory did not exist (the source
creates the directory in every branch, including the failing ones). -/
inductive DownloadOutcome where
  | fetchError (mkdir : Option String)
  | decodeError (mkdir : Option String)
  | ok (mkdir : Option String) (path : String) (bytes : List Nat)
deriving DecidableEq, Repr

/-- `PipelineModules.download_gh_file`, with the filesystem (existing paths)
and the HTTP response passed in explicitly: ensure the parent directory
exists, require status 200, base64-decode the `content` field, and write the
raw bytes to `dl_filename`. -/
def download_gh_file (fsExists : String → Bool) (dl_filename : String)
    (resp : BlobResponse) : DownloadOutcome :=
  let dl_directory := dirname dl_filename
  let mkdir := if fsExists dl_directory then none else some dl_directory
  if resp.status ≠ 200 then
    .fetchError mkdir
  else
    match b64decode resp.content.toList with
    | none => .decodeError mkdir
    | some bytes => .ok mkdir dl_filename bytes

/-- Side effects observed during `install`: `os.makedirs` calls, blob-URL
GET requests, and file writes (path, bytes), each in order of occurrence. -/
structure Effects where
  mkdirs : List String
  blob_fetches : List String
  writes : List (String × List Nat)
deriving DecidableEq, Repr

/-- No side effects yet. -/
def noEffects : Effects := ⟨[], [], []⟩

/-- Outcome of `install`: a fatal outcome propagated from the tree fetch, an
error raised inside the download loop, or normal completion with the Python
return value (`some false` from an explicit `return False`, `none` when the
method falls off the end) and the accumulated side effects. -/
inductive InstallOutcome where
  | sysExit (code : Nat)
  | fetchError
  | assertFailure
  | blobFetchError (st : PipelineModulesState) (eff : Effects)
  | blobDecodeError (st : PipelineModulesState) (eff : Effects)
  | done (st : PipelineModulesState) (ret : Option Bool) (eff : Effects)
deriving DecidableEq, Repr

/-- The `for filename, api_url in files.items()` loop of `install`: each
iteration joins the local path, and runs `download_gh_file` with a filesystem
extended by the directories created so far.  Falling off the end of the loop
returns `none` (Python `None`). -/
def installDownloadLoop (st : PipelineModulesState) (fsExists : String → Bool)
    (blob : String → BlobResponse) (eff : Effects) :
    List (String × String) → InstallOutcome
  | [] => .done st none eff
  | (filename, api_url) :: rest =>
      let dl_filename := st.pipeline_dir ++ "/modules/" ++ filename
      let fsNow := fun p => fsExists p || eff.mkdirs.contains p
      let outcome := download_gh_file fsNow dl_filename (blob api_url)
      match outcome with
      | .fetchError mk =>
          .blobFetchError st
            { eff with mkdirs := eff.mkdirs ++ mk.toList
                       blob_fetches := eff.blob_fetches ++ [api_url] }
      | .decodeError mk =>
          .blobDecodeError st
            { eff with mkdirs := eff.mkdirs ++ mk.toList
                       blob_fetches := eff.blob_fetches ++ [api_url] }
      | .ok mk path bytes =>
          installDownloadLoop st fsExists blob
            { mkdirs := eff.mkdirs ++ mk.toList
              blob_fetches := eff.blob_fetches ++ [api_url]
              writes := eff.writes ++ [(path, bytes)] }
            rest

/-- `PipelineModules.install`: fetch the tree, check the module name is
available, check the target directory does not already exist, then download
every file of the module. -/
def install (st : PipelineModulesState) (r : TreeResponse)
    (fsExists : String → Bool) (blob : String → BlobResponse)
    (module : String) : InstallOutcome :=
  match get_modules_file_tree st r with
  | .sysExit c => .sysExit c
  | .fetchError => .fetchError
  | .assertFailure => .assertFailure
  | .ok st' =>
      if module ∉ st'.modules_avail_module_names then
        .done st' (some false) noEffects
      else
        let module_dir := st'.pipeline_dir ++ "/modules/software/" ++ module
        if fsExists module_dir then
          .done st' (some false) noEffects
        else
          let files := get_module_file_urls module st'.modules_file_tree
          installDownloadLoop st' fsExists blob noEffects files

/-- The Python return value of an `install` call that ran to completion. -/
def installRet : InstallOutcome → Option (Option Bool)
  | .done _ r _ => some r
  | _ => none

/-- A sample repository reference (the source's defaults). -/
def sampleRepo : ModulesRepo := ⟨"nf-core/modules", "master"⟩

/-- A sample tree entry for the `fastqc` module's `main.nf`. -/
def sampleEntry : FileTreeEntry := ⟨"software/fastqc/main.nf", "blob", "u1", "s1"⟩

/-- A successful, non-truncated tree response listing `sampleEntry`. -/
def sampleResp : TreeResponse := ⟨200, ⟨"abc", [sampleEntry], false⟩⟩

/-- A freshly initialised manager for `sampleRepo` in `/pipe`. -/
def sampleState : PipelineModulesState := initPipelineModules sampleRepo "/pipe"

/-- The manager state after fetching `sampleResp` from `sampleState`. -/
def sampleFetched : PipelineModulesState :=
  { modules_repo := sampleRepo
    pipeline_dir := "/pipe"
    modules_file_tree := [sampleEntry]
    modules_current_hash := some "abc"
    modules_avail_module_names := ["fastqc"] }

/-- A blob oracle answering every URL with status 200 and content `TWFu`
(the base64 encoding of the bytes of `Man`). -/
def sampleBlob : String → BlobResponse := fun _ => ⟨200, "TWFu"⟩

/-- A filesystem on which no path exists. -/
def emptyFs : String → Bool := fun _ => false

/-- A concrete tree for the `fastqc` module: a main script, a meta file, a
test directory entry and a test fixture. -/
def fastqcTree : List FileTreeEntry :=
  [⟨"software/fastqc/main.nf", "blob", "u1", "s1"⟩,
   ⟨"software/fastqc/meta.yml", "blob", "u2", "s2"⟩,
   ⟨"software/fastqc/test", "tree", "u3", "s3"⟩,
   ⟨"software/fastqc/test/main.nf", "blob", "u4", "s4"⟩]

/-- The name-derivation loop of `get_modules_file_tree`, rephrased: folding
append over the tree extends the accumulator with the matching names. -/
theorem foldl_derive_names (tree : List FileTreeEntry) (acc : List String) :
    tree.foldl
      (fun acc f =>
        if isModulePath f.path then acc ++ [stripModuleName f.path] else acc)
      acc =
    acc ++ tree.filterMap
      (fun f => if isModulePath f.path then some (stripModuleName f.path) else none) := by
  induction tree generalizing acc with
  | nil => simp
  | cons f rest ih =>
      by_cases hp : isModulePath f.path
      · simp [hp, ih]
      · simp [hp, ih]

/-- C1: for every tree response accepted by `get_modules_file_tree` (status
200, not truncated), a freshly initialised manager ends with
`modules_avail_module_names` equal to exactly the names of the entries whose
path starts with `software/`, ends with `/main.nf` and has no `/test/`
substring, each name the path with 9 leading and 8 trailing characters
stripped, in tree order. -/
theorem fetch_derives_available_module_names (repo : ModulesRepo) (cwd : String)
    (r : TreeResponse) (h200 : r.status = 200) (htr : r.body.truncated = false) :
    availOf (get_modules_file_tree (initPipelineModules repo cwd) r) =
      some (r.body.tree.filterMap (fun f =>
        if strStartsWith f.path "software/" && strEndsWith f.path "/main.nf" &&
            !(strContains f.path "/test/") then
          some (String.mk ((f.path.toList.drop 9).take (f.path.toList.length - 9 - 8)))
        else none)) := by
  simp [get_modules_file_tree, h200, htr, availOf, initPipelineModules,
        isModulePath, stripModuleName, Nat.sub_sub]
  simpa [isModulePath, stripModuleName] using foldl_derive_names r.body.tree []

/-- C1 witness: the derivation evaluated on a concrete response. -/
theorem fetch_derives_available_module_names_witness :
    availOf (get_modules_file_tree (initPipelineModules sampleRepo "/pipe") sampleResp) =
      some (sampleResp.body.tree.filterMap (fun f =>
        if strStartsWith f.path "software/" && strEndsWith f.path "/main.nf" &&
            !(strContains f.path "/test/") then
          some (String.mk ((f.path.toList.drop 9).take (f.path.toList.length - 9 - 8)))
        else none)) :=
  fetch_derives_available_module_names sampleRepo "/pipe" sampleResp rfl rfl

/-- C2: `get_modules_file_tree` is *not* idempotent — the second call appends
the derived names again instead of overwriting, leaving
`modules_avail_module_names = ["fastqc", "fastqc"]` where a single call
leaves `["fastqc"]`. -/
theorem fetch_twice_duplicates_names :
    availOf (get_modules_file_tree sampleState sampleResp) = some ["fastqc"] ∧
    availOf (fetchTwice sampleState sampleResp) = some ["fastqc", "fastqc"] := by
  decide

/-- C9: the prefix test of `get_module_file_urls` is a plain string-prefix
match, not a path-segment match: querying `foo` picks up a blob under
`software/foobar/`. -/
theorem prefix_match_not_segment_match :
    ("software/foobar/main.nf", "u_foobar") ∈
      get_module_file_urls "foo"
        [⟨"software/foobar/main.nf", "blob", "u_foobar", "s"⟩] := by
  decide

/-- C10: `get_module_file_urls` is a pure read: it leaves the manager state
unchanged, and its result depends only on `modules_file_tree` and the module
name. -/
theorem get_module_file_urls_method_is_pure (st st' : PipelineModulesState)
    (m : String) (h : st.modules_file_tree = st'.modules_file_tree) :
    (get_module_file_urls_method st m).2 = st ∧
    (get_module_file_urls_method st m).1 = (get_module_file_urls_method st' m).1 :=
  ⟨rfl, by simp [get_module_file_urls_method, h]⟩

/-- C10 witness: purity evaluated on a concrete state. -/
theorem get_module_file_urls_method_is_pure_witness :
    (get_module_file_urls_method sampleFetched "fastqc").2 = sampleFetched ∧
    (get_module_file_urls_method sampleFetched "fastqc").1 =
      (get_module_file_urls_method sampleFetched "fastqc").1 :=
  get_module_file_urls_method_is_pure sampleFetched sampleFetched "fastqc" rfl

/-- C7: error handling of `get_modules_file_tree`: 404 exits the process
with code 1; any other non-200 raises the fetch error; a truncated 200 body
fails the assertion; a non-truncated 200 body updates the state. -/
theorem fetch_error_handling (st : PipelineModulesState) (r : TreeResponse) :
    (r.status = 404 → get_modules_file_tree st r = .sysExit 1) ∧
    (r.status ≠ 404 → r.status ≠ 200 → get_modules_file_tree st r = .fetchError) ∧
    (r.status = 200 → r.body.truncated = true →
      get_modules_file_tree st r = .assertFailure) ∧
    (r.status = 200 → r.body.truncated = false →
      ∃ st', get_modules_file_tree st r = .ok st' ∧
        st'.modules_file_tree = r.body.tree ∧
        st'.modules_current_hash = some r.body.sha) := by
  refine ⟨fun h => ?_, fun h1 h2 => ?_, fun h1 h2 => ?_, fun h1 h2 => ?_⟩
  · simp [get_modules_file_tree, h]
  · simp [get_modules_file_tree, h1, h2]
  · simp [get_modules_file_tree, h1, h2]
  · simp [get_modules_file_tree, h1, h2]

/-- C7 witness: the four outcomes on concrete responses. -/
theorem fetch_error_handling_witness :
    get_modules_file_tree sampleState ⟨404, ⟨"", [], false⟩⟩ = .sysExit 1 ∧
    get_modules_file_tree sampleState ⟨500, ⟨"", [], false⟩⟩ = .fetchError ∧
    get_modules_file_tree sampleState ⟨200, ⟨"", [], true⟩⟩ = .assertFailure ∧
    ∃ st', get_modules_file_tree sampleState sampleResp = .ok st' ∧
      st'.modules_file_tree = sampleResp.body.tree ∧
      st'.modules_current_hash = some sampleResp.body.sha :=
  ⟨(fetch_error_handling sampleState ⟨404, ⟨"", [], false⟩⟩).1 rfl,
   (fetch_error_handling sampleState ⟨500, ⟨"", [], false⟩⟩).2.1 (by decide) (by decide),
   (fetch_error_handling sampleState ⟨200, ⟨"", [], true⟩⟩).2.2.1 rfl rfl,
   (fetch_error_handling sampleState sampleResp).2.2.2 rfl rfl⟩

/-- On a fresh key, Python dict assignment appends the pair. -/
theorem dictInsert_fresh (d : List (String × String)) (k v : String)
    (h : ∀ kv ∈ d, kv.1 ≠ k) : dictInsert d k v = d ++ [(k, v)] := by
  unfold dictInsert
  rw [if_neg]
  simp only [List.any_eq_true, not_exists, not_and]
  intro kv hkv
  simpa using h kv hkv

/-- The dict-building loop of `get_module_file_urls`, rephrased: when the
remaining paths are distinct and disjoint from the accumulator's keys, the
loop appends the matching `(path, url)` pairs in order. -/
theorem get_module_file_urls_foldl (module : String) :
    ∀ (tree : List FileTreeEntry) (acc : List (String × String)),
      (tree.map FileTreeEntry.path).Nodup →
      (∀ kv ∈ acc, kv.1 ∉ tree.map FileTreeEntry.path) →
      tree.foldl
        (fun results f =>
          if strStartsWith f.path ("software/" ++ module) && f.type = "blob" then
            dictInsert results f.path f.url
          else
            results)
        acc =
      acc ++ (tree.filter
          (fun f => strStartsWith f.path ("software/" ++ module) && f.type = "blob")).map
        (fun f => (f.path, f.url))
  | [], acc, _, _ => by simp
  | f :: rest, acc, hnd, hdisj => by
      have hndr : (rest.map FileTreeEntry.path).Nodup := by
        simpa using hnd.of_cons
      have hfr : f.path ∉ rest.map FileTreeEntry.path := by
        have := hnd
        simp only [List.map_cons, List.nodup_cons] at this
        exact this.1
      by_cases hp : (strStartsWith f.path ("software/" ++ module) && f.type = "blob") = true
      · have hfresh : ∀ kv ∈ acc, kv.1 ≠ f.path := fun kv hkv heq => by
          exact hdisj kv hkv (by simp [heq])
        have hdisj' : ∀ kv ∈ acc ++ [(f.path, f.url)],
            kv.1 ∉ rest.map FileTreeEntry.path := by
          intro kv hkv
          rcases List.mem_append.mp hkv with hkv | hkv
          · exact fun hmem => hdisj kv hkv (by simp [hmem])
          · simp only [List.mem_singleton] at hkv
            subst hkv
            exact hfr
        rw [List.foldl_cons, if_pos hp, dictInsert_fresh acc f.path f.url hfresh,
            get_module_file_urls_foldl module rest (acc ++ [(f.path, f.url)]) hndr hdisj']
        simp [hp]
      · have hdisj' : ∀ kv ∈ acc, kv.1 ∉ rest.map FileTreeEntry.path := by
          intro kv hkv hmem
          exact hdisj kv hkv (by simp [hmem])
        rw [List.foldl_cons, if_neg hp,
            get_module_file_urls_foldl module rest acc hndr hdisj']
        simp [hp]

/-- C4: when the tree's paths are distinct (as in any git tree),
`get_module_file_urls` returns exactly the `(path, url)` pairs of the blob
entries whose path starts with `software/<module>`, in tree order — tree
entries are excluded and no `/test/` filtering is applied. -/
theorem get_module_file_urls_exact (module : String) (tree : List FileTreeEntry)
    (hnd : (tree.map FileTreeEntry.path).Nodup) :
    get_module_file_urls module tree =
      (tree.filter
          (fun f => strStartsWith f.path ("software/" ++ module) && f.type = "blob")).map
        (fun f => (f.path, f.url)) := by
  have h := get_module_file_urls_foldl module tree [] hnd (by simp)
  simpa [get_module_file_urls] using h

/-- C4 witness: the characterization evaluated on a concrete tree containing
a meta file, a test fixture and a directory entry. -/
theorem get_module_file_urls_exact_witness :
    get_module_file_urls "fastqc" fastqcTree =
      (fastqcTree.filter
          (fun f => strStartsWith f.path ("software/" ++ "fastqc") && f.type = "blob")).map
        (fun f => (f.path, f.url)) :=
  get_module_file_urls_exact "fastqc" fastqcTree (by decide)

/-- C5: if the requested module is absent from the available names derived
by the fetch, `install` returns `False` having performed no work: no
directory created, no blob URL fetched, no file written. -/
theorem install_module_not_found (st : PipelineModulesState) (r : TreeResponse)
    (fsExists : String → Bool) (blob : String → BlobResponse) (m : String)
    (st' : PipelineModulesState)
    (hok : get_modules_file_tree st r = .ok st')
    (hno : m ∉ st'.modules_avail_module_names) :
    install st r fsExists blob m = .done st' (some false) noEffects := by
  simp only [install, hok]
  rw [if_pos hno]

/-- C5 witness: installing a module that is not in the tree. -/
theorem install_module_not_found_witness :
    install sampleState sampleResp emptyFs sampleBlob "doesnotexist" =
      .done sampleFetched (some false) noEffects :=
  install_module_not_found sampleState sampleResp emptyFs sampleBlob "doesnotexist"
    sampleFetched (by decide) (by decide)

/-- C6: if the target directory `<pipeline_dir>/modules/software/<module>`
already exists, `install` returns `False` without fetching any blob URL,
creating any directory or writing any file. -/
theorem install_directory_exists (st : PipelineModulesState) (r : TreeResponse)
    (fsExists : String → Bool) (blob : String → BlobResponse) (m : String)
    (st' : PipelineModulesState)
    (hok : get_modules_file_tree st r = .ok st')
    (hyes : m ∈ st'.modules_avail_module_names)
    (hdir : fsExists (st'.pipeline_dir ++ "/modules/software/" ++ m) = true) :
    install st r fsExists blob m = .done st' (some false) noEffects := by
  simp only [install, hok]
  rw [if_neg (not_not_intro hyes), if_pos hdir]

/-- C6 witness: installing `fastqc` when its directory already exists. -/
theorem install_directory_exists_witness :
    install sampleState sampleResp
      (fun p => p == "/pipe/modules/software/fastqc") sampleBlob "fastqc" =
      .done sampleFetched (some false) noEffects :=
  install_directory_exists sampleState sampleResp
    (fun p => p == "/pipe/modules/software/fastqc") sampleBlob "fastqc"
    sampleFetched (by decide) (by decide) (by decide)

/-- When the download loop runs to completion it leaves the state unchanged
and produces the Python return value `None` (the method never returns
`True`). -/
theorem installDownloadLoop_ret (st : PipelineModulesState)
    (fsExists : String → Bool) (blob : String → BlobResponse) :
    ∀ (files : List (String × String)) (eff : Effects)
      (st2 : PipelineModulesState) (ret : Option Bool) (eff2 : Effects),
      installDownloadLoop st fsExists blob eff files = .done st2 ret eff2 →
      st2 = st ∧ ret = none
  | [], eff, st2, ret, eff2, h => by
      rw [installDownloadLoop] at h
      cases h
      exact ⟨rfl, rfl⟩
  | (fn, url) :: rest, eff, st2, ret, eff2, h => by
      rw [installDownloadLoop] at h
      split at h
      · cases h
      · cases h
      · exact installDownloadLoop_ret st fsExists blob rest _ st2 ret eff2 h

/-- C3 counterexample: on the success path — available module, fresh target
directory, every download succeeding — `install` runs the download loop to
the end and returns `None` (Python falls off the end of the method), not
`True`. -/
theorem install_success_returns_none :
    installRet (install sampleState sampleResp emptyFs sampleBlob "fastqc") =
      some none ∧
    installRet (install sampleState sampleResp emptyFs sampleBlob "fastqc") ≠
      some (some true) := by
  decide

/-- C3 amended: whenever `install` completes normally after a successful
tree fetch, its return value is `False` exactly on the two recoverable
precondition failures (module name unavailable, target directory already
present) and `None` — not `True` — when it reaches the end of the download
loop. -/
theorem install_return_values (st : PipelineModulesState) (r : TreeResponse)
    (fsExists : String → Bool) (blob : String → BlobResponse) (m : String)
    (st' : PipelineModulesState) (hok : get_modules_file_tree st r = .ok st')
    (st2 : PipelineModulesState) (ret : Option Bool) (eff : Effects)
    (hdone : install st r fsExists blob m = .done st2 ret eff) :
    st2 = st' ∧ (ret = some false ∨ ret = none) ∧
      (ret = some false ↔
        (m ∉ st'.modules_avail_module_names ∨
         fsExists (st'.pipeline_dir ++ "/modules/software/" ++ m) = true)) := by
  simp only [install, hok] at hdone
  by_cases h1 : m ∈ st'.modules_avail_module_names
  · rw [if_neg (not_not_intro h1)] at hdone
    by_cases h2 : fsExists (st'.pipeline_dir ++ "/modules/software/" ++ m) = true
    · rw [if_pos h2] at hdone
      cases hdone
      exact ⟨rfl, Or.inl rfl, by simp [h2]⟩
    · rw [if_neg h2] at hdone
      obtain ⟨hst, hret⟩ :=
        installDownloadLoop_ret st' fsExists blob _ _ st2 ret eff hdone
      subst hret
      refine ⟨hst, Or.inr rfl, ?_⟩
      simp [h1, h2]
  · rw [if_pos h1] at hdone
    cases hdone
    exact ⟨rfl, Or.inl rfl, by simp [h1]⟩

/-- C3 witness: the amended characterization applied to a concrete run that
completes the download loop. -/
theorem install_return_values_witness :
    sampleFetched = sampleFetched ∧
    ((none : Option Bool) = some false ∨ (none : Option Bool) = none) ∧
      ((none : Option Bool) = some false ↔
        ("fastqc" ∉ sampleFetched.modules_avail_module_names ∨
         emptyFs (sampleFetched.pipeline_dir ++ "/modules/software/" ++ "fastqc") =
           true)) :=
  install_return_values sampleState sampleResp emptyFs sampleBlob "fastqc"
    sampleFetched (by decide) sampleFetched none
    ⟨["/pipe/modules/software/fastqc"], ["u1"],
     [("/pipe/modules/software/fastqc/main.nf", [77, 97, 110])]⟩
    (by decide)

/-- Decoding the alphabet character of a six-bit value recovers the value. -/
theorem charSextet_sextetChar : ∀ s < 64, charSextet (sextetChar s) = some s := by
  decide

/-- No alphabet character is the padding character. -/
theorem sextetChar_ne_pad : ∀ s < 64, sextetChar s ≠ '=' := by
  decide

/-- Every alphabet character survives the discard step of `b64decode`. -/
theorem keep_sextetChar (s : Nat) (hs : s < 64) :
    (decide (sextetChar s = '=') || (charSextet (sextetChar s)).isSome) = true := by
  rw [charSextet_sextetChar s hs]
  simp

/-- Every character produced by `b64encode` survives the discard step of
`b64decode`. -/
theorem mem_b64encode_keep : ∀ (bs : List Nat), (∀ x ∈ bs, x < 256) →
    ∀ c ∈ b64encode bs, (decide (c = '=') || (charSextet c).isSome) = true
  | [], _, c, hc => by simp [b64encode] at hc
  | [a], h, c, hc => by
      have ha : a < 256 := h a (by simp)
      simp only [b64encode, List.mem_cons, List.not_mem_nil, or_false] at hc
      rcases hc with rfl | rfl | rfl | rfl
      · exact keep_sextetChar _ (by omega)
      · exact keep_sextetChar _ (by omega)
      · decide
      · decide
  | [a, b], h, c, hc => by
      have ha : a < 256 := h a (by simp)
      have hb : b < 256 := h b (by simp)
      simp only [b64encode, List.mem_cons, List.not_mem_nil, or_false] at hc
      rcases hc with rfl | rfl | rfl | rfl
      · exact keep_sextetChar _ (by omega)
      · exact keep_sextetChar _ (by omega)
      · exact keep_sextetChar _ (by omega)
      · decide
  | a :: b :: c' :: rest, h, c, hc => by
      have ha : a < 256 := h a (by simp)
      have hb : b < 256 := h b (by simp)
      have hc' : c' < 256 := h c' (by simp)
      simp only [b64encode, List.mem_cons] at hc
      rcases hc with rfl | rfl | rfl | rfl | hmem
      · exact keep_sextetChar _ (by omega)
      · exact keep_sextetChar _ (by omega)
      · exact keep_sextetChar _ (by omega)
      · exact keep_sextetChar _ (by omega)
      · exact mem_b64encode_keep rest (fun x hx => h x (by simp [hx])) c hmem

/-- Decoding the strict groups of an encoding recovers the bytes. -/
theorem b64_roundtrip_groups : ∀ (bs : List Nat), (∀ x ∈ bs, x < 256) →
    b64decodeGroups (b64encode bs) = some bs
  | [], _ => by simp [b64encode, b64decodeGroups]
  | [a], h => by
      have ha : a < 256 := h a (by simp)
      have e1 := charSextet_sextetChar (a / 4) (by omega)
      have e2 := charSextet_sextetChar (a % 4 * 16) (by omega)
      simp only [b64encode, b64decodeGroups, e1, e2]
      simp
      omega
  | [a, b], h => by
      have ha : a < 256 := h a (by simp)
      have hb : b < 256 := h b (by simp)
      have e1 := charSextet_sextetChar (a / 4) (by omega)
      have e2 := charSextet_sextetChar (a % 4 * 16 + b / 16) (by omega)
      have e3 := charSextet_sextetChar (b % 16 * 4) (by omega)
      have ne3 := sextetChar_ne_pad (b % 16 * 4) (by omega)
      simp only [b64encode, b64decodeGroups, e1, e2, e3]
      simp [ne3]
      omega
  | a :: b :: c :: rest, h => by
      have ha : a < 256 := h a (by simp)
      have hb : b < 256 := h b (by simp)
      have hc : c < 256 := h c (by simp)
      have e1 := charSextet_sextetChar (a / 4) (by omega)
      have e2 := charSextet_sextetChar (a % 4 * 16 + b / 16) (by omega)
      have e3 := charSextet_sextetChar (b % 16 * 4 + c / 64) (by omega)
      have e4 := charSextet_sextetChar (c % 64) (by omega)
      have ne3 := sextetChar_ne_pad (b % 16 * 4 + c / 64) (by omega)
      have ne4 := sextetChar_ne_pad (c % 64) (by omega)
      have ih := b64_roundtrip_groups rest (fun x hx => h x (by simp [hx]))
      simp only [b64encode, b64decodeGroups, e1, e2, e3, e4]
      simp [ne3, ne4, ih]
      omega

/-- C8: for every byte sequence, `download_gh_file` given a 200 response
whose `content` field is the base64 encoding of those bytes writes exactly
those bytes to `dl_filename`, creating the parent directory when it does not
exist: the base64 round trip through this path is exact. -/
theorem download_gh_file_writes_decoded_bytes (fsExists : String → Bool)
    (dl_filename : String) (bytes : List Nat) (h : ∀ x ∈ bytes, x < 256) :
    download_gh_file fsExists dl_filename ⟨200, String.mk (b64encode bytes)⟩ =
      .ok (if fsExists (dirname dl_filename) then none
           else some (dirname dl_filename))
        dl_filename bytes := by
  have hdec : b64decode (b64encode bytes) = some bytes := by
    unfold b64decode
    rw [List.filter_eq_self.mpr (mem_b64encode_keep bytes h)]
    exact b64_roundtrip_groups bytes h
  unfold download_gh_file
  simp [hdec]

/-- C8 witness: the round trip evaluated on the concrete bytes
`[0, 255, 10]`. -/
theorem download_gh_file_writes_decoded_bytes_witness :
    download_gh_file emptyFs "/pipe/modules/software/fastqc/main.nf"
      ⟨200, String.mk (b64encode [0, 255, 10])⟩ =
      .ok (if emptyFs (dirname "/pipe/modules/software/fastqc/main.nf") then none
           else some (dirname "/pipe/modules/software/fastqc/main.nf"))
        "/pipe/modules/software/fastqc/main.nf" [0, 255, 10] :=
  download_gh_file_writes_decoded_bytes emptyFs
    "/pipe/modules/software/fastqc/main.nf" [0, 255, 10] (by decide)
